import Mathlib

/-!
Verification of the sentiment-dashboard core logic
(`src/src/components/Dashboard.tsx`), shallowly embedded in Lean.

Conventions of the embedding:
* JS numbers are modelled by `Rat` (all scores/thresholds in play are
  decimal literals); the JS `NaN` produced by `0 / 0` is modelled by
  `Option Rat` with `none` for `NaN`.
* JS strings are Lean `String`s; `toLowerCase`, `length` and whitespace
  agree with the Lean counterparts on the ASCII texts the claims use.
* The JS object used as a count table (`Record<string, number>`) is an
  association list updated in place; `Object.entries` enumerates
  array-index-like keys first in ascending numeric order, then the
  remaining keys in insertion order, as the JS object model prescribes.
* `Array.prototype.sort` is stable, so it is modelled by a stable
  insertion sort for the given comparator.
-/

namespace SocialSentiment

/-! ### Data model (spec §3) -/

structure Post where
  id : Nat
  text : String
  created_at : Int
deriving DecidableEq, Repr

structure SentimentResult where
  score : Rat
  confidence : Option Rat
deriving DecidableEq, Repr

structure KeywordCount where
  keyword : String
  count : Nat
deriving DecidableEq, Repr

structure Distribution where
  positive : Nat
  neutral : Nat
  negative : Nat
deriving DecidableEq, Repr

structure SentimentData where
  overallScore : Option Rat
  sentimentOverTime : List (String × Rat)
  sentimentDistribution : Distribution
  confidenceScores : List Rat
  topKeywords : List KeywordCount
deriving DecidableEq, Repr

/-! ### Keyword extraction (`extractTopKeywords`, Dashboard.tsx lines 72-89) -/

/-- `text.split(/\s+/)`: split on maximal runs of whitespace.  The flag
records that we are inside a whitespace run (so further whitespace extends the
separator instead of opening a new empty field).  As in JS, leading (or only)
whitespace contributes an empty field, as does trailing whitespace; all such
empty fields are later removed by the length filter. -/
def splitWsGo : Bool → List Char → List Char → List String
  | _, [], acc => [String.mk acc.reverse]
  | skipping, c :: cs, acc =>
    if c.isWhitespace then
      if skipping then splitWsGo true cs acc
      else String.mk acc.reverse :: splitWsGo true cs []
    else splitWsGo false cs (c :: acc)

def splitWs (s : String) : List String := splitWsGo false s.data []

/-- The fixed stop-word set of `extractTopKeywords`. -/
def stopWords : List String := ["the", "be", "to", "of", "and", "a", "in", "that", "have"]

/-- The token filter `word => !stopWords.has(word) && word.length > 2`. -/
def keepToken (w : String) : Bool := !(stopWords.contains w) && decide (w.length > 2)

/-- `text.toLowerCase()`: characterwise lowercase (the texts in play are
ASCII, where JS and `Char.toLower` agree). -/
def jsToLower (s : String) : String := String.mk (s.data.map Char.toLower)

/-- One text's contribution to the pooled token list:
`text.toLowerCase().split(/\s+/).filter(keepToken)`. -/
def tokenize (text : String) : List String := (splitWs (jsToLower text)).filter keepToken

/-- `texts.flatMap(tokenize)`: the pooled token list. -/
def pooledWords (texts : List String) : List String := texts.flatMap tokenize

/-- `acc[word] = (acc[word] || 0) + 1` on a JS object: bump the entry of the
first (unique) matching key in place, or append a fresh `(word, 1)` entry. -/
def recordInsert : List (String × Nat) → String → List (String × Nat)
  | [], w => [(w, 1)]
  | (k, c) :: m, w => if k = w then (k, c + 1) :: m else (k, c) :: recordInsert m w

/-- `words.reduce(..., {})`: the count table in insertion order. -/
def wordCounts (ws : List String) : List (String × Nat) := ws.foldl recordInsert []

/-- Numeric value of a digit string. -/
def digitsVal (cs : List Char) : Nat := cs.foldl (fun n c => 10 * n + (c.toNat - 48)) 0

/-- A JS object key that is an array index (canonical numeric string whose
value is below `2^32 - 1`): such keys are enumerated before all other string
keys by `Object.entries`. -/
def isArrayIndexKey (w : String) : Bool :=
  !(w.data.isEmpty) && w.data.all Char.isDigit &&
    (decide (w.data = ['0']) || !(decide (w.data.head? = some '0'))) &&
    decide (digitsVal w.data < 4294967295)

/-- Insert into a list of array-index entries, keeping ascending numeric key order. -/
def insertAscIdx (x : String × Nat) : List (String × Nat) → List (String × Nat)
  | [] => [x]
  | y :: ys =>
    if digitsVal x.1.data ≤ digitsVal y.1.data then x :: y :: ys
    else y :: insertAscIdx x ys

/-- Sort array-index entries ascending by numeric key value. -/
def sortAscIdx : List (String × Nat) → List (String × Nat)
  | [] => []
  | x :: xs => insertAscIdx x (sortAscIdx xs)

/-- `Object.entries(wordCounts)`: array-index-like keys first in ascending
numeric order, then the other keys in insertion order. -/
def jsEntries (m : List (String × Nat)) : List (String × Nat) :=
  sortAscIdx (m.filter (fun p => isArrayIndexKey p.1)) ++
    m.filter (fun p => !isArrayIndexKey p.1)

/-- Stable insertion for `.sort((a, b) => b[1] - a[1])`: a new element goes in
front of the first entry whose count is ≤ its own, hence after all earlier
entries with strictly greater count and before later entries of equal count. -/
def insertDesc (x : String × Nat) : List (String × Nat) → List (String × Nat)
  | [] => [x]
  | y :: ys => if y.2 ≤ x.2 then x :: y :: ys else y :: insertDesc x ys

/-- The stable descending-by-count sort `.sort((a, b) => b[1] - a[1])`. -/
def sortDesc : List (String × Nat) → List (String × Nat)
  | [] => []
  | x :: xs => insertDesc x (sortDesc xs)

/-- `extractTopKeywords` (Dashboard.tsx lines 72-89):
`Object.entries(wordCounts).sort((a,b) => b[1]-a[1]).slice(0,10).map(([keyword, count]) => ({keyword, count}))`. -/
def extractTopKeywords (texts : List String) : List KeywordCount :=
  ((sortDesc (jsEntries (wordCounts (pooledWords texts)))).take 10).map
    (fun p => ⟨p.1, p.2⟩)

/-! ### Sentiment classifier and aggregation (`handleAnalyze`, lines 41-60,
and the overall-label display, lines 125-126) -/

inductive Label where
  | positive
  | neutral
  | negative
deriving DecidableEq, Repr

/-- The threshold policy (spec §4.1): `s > 0.3 → positive`,
`s < -0.3 → negative`, else `neutral`. -/
def classify (s : Rat) : Label :=
  if s > 3/10 then .positive else if s < -(3/10) then .negative else .neutral

/-- JS division, with `none` standing for the `NaN` of `0 / 0` (and the
infinities of `x / 0`). -/
def jsDiv (a b : Rat) : Option Rat := if b = 0 then none else some (a / b)

/-- Line 41: `sentiments.reduce((acc, curr) => acc + curr.score, 0) / sentiments.length`. -/
def overallScore (sentiments : List SentimentResult) : Option Rat :=
  jsDiv (sentiments.foldl (fun acc curr => acc + curr.score) 0) (sentiments.length : Rat)

/-- Lines 47-52: the distribution `reduce`; each step tests
`curr.score > 0.3` then `curr.score < -0.3`. -/
def distStep (acc : Distribution) (curr : SentimentResult) : Distribution :=
  if curr.score > 3/10 then { acc with positive := acc.positive + 1 }
  else if curr.score < -(3/10) then { acc with negative := acc.negative + 1 }
  else { acc with neutral := acc.neutral + 1 }

def distribution (sentiments : List SentimentResult) : Distribution :=
  sentiments.foldl distStep ⟨0, 0, 0⟩

/-- JS `x || d` on an optional number: a missing value and the falsy `0`
both fall back to the default. -/
def jsOrDefault (c : Option Rat) (d : Rat) : Rat :=
  match c with
  | none => d
  | some x => if x = 0 then d else x

/-- Line 58: `sentiments.map(s => s.confidence || 1)`. -/
def confidenceScores (sentiments : List SentimentResult) : List Rat :=
  sentiments.map (fun s => jsOrDefault s.confidence 1)

/-- Lines 42-45: `sentiments.map((s, i) => ({x: formatDistance(new
Date(fetchedPosts[i].created_at), new Date(), ...), y: s.score}))`, for
the aligned case produced by `Promise.all`.  `fmt` stands for the external
`formatDistance`.  This is the idealized view in which all the `new Date()`
wall-clock reads return one value `now`; the code actually performs one
fresh read per element — see `sentimentOverTimeClocked` for that faithful
model and the constant-clock lemma relating the two. -/
def sentimentOverTime (fmt : Int → Int → String) (now : Int)
    (posts : List Post) (sentiments : List SentimentResult) : List (String × Rat) :=
  (posts.zip sentiments).map (fun ps => (fmt ps.1.created_at now, ps.2.score))

/-- Lines 42-45 as written: `new Date()` is called inside the `map`, once per
element, so element `i`'s label is computed from the `i`-th wall-clock read
`clock i`.  The code offers no parameter through which a single time could be
injected; the clock stream `clock` is how the embedding exposes those internal
reads. -/
def sentimentOverTimeClocked (fmt : Int → Int → String) (clock : Nat → Int)
    (posts : List Post) (sentiments : List SentimentResult) : List (String × Rat) :=
  ((posts.zip sentiments).enum).map
    (fun p => (fmt p.2.1.created_at (clock p.1), p.2.2.score))

/-- Lines 41-60: the whole aggregate assembled by `handleAnalyze` into
`setSentimentData`.  Pure function of the fetched posts, the sentiments,
the relative-time formatter and the clock value `now`. -/
def aggregate (fmt : Int → Int → String) (now : Int)
    (posts : List Post) (sentiments : List SentimentResult) : SentimentData :=
  { overallScore := overallScore sentiments
    sentimentOverTime := sentimentOverTime fmt now posts sentiments
    sentimentDistribution := distribution sentiments
    confidenceScores := confidenceScores sentiments
    topKeywords := extractTopKeywords (posts.map (fun p => p.text)) }

/-- Lines 125-126: the overall-label display
`overallScore > 0.3 ? 'Positive' : overallScore < -0.3 ? 'Negative' : 'Neutral'`. -/
def overallLabel (s : Rat) : String :=
  if s > 3/10 then "Positive" else if s < -(3/10) then "Negative" else "Neutral"

/-! ### Workflow (`handleAnalyze`, lines 26-70) -/

/-- A thrown JS value: `some msg` when it is an `Error` carrying a message,
`none` otherwise; `toastMessage` mirrors
`error instanceof Error ? error.message : 'An error occurred'`. -/
abbrev JsError := Option String

def toastMessage (e : JsError) : String := e.getD "An error occurred"

inductive Toast where
  | error (msg : String)
  | success (msg : String)
deriving DecidableEq, Repr

/-- The component state touched by `handleAnalyze`: the query input and the
two `useState` cells it writes (`posts`, `sentimentData`). -/
structure DashState where
  query : String
  posts : List Post
  sentimentData : SentimentData
deriving DecidableEq, Repr

/-- The `useState` initial value of `sentimentData` (lines 17-23). -/
def initialSentimentData : SentimentData :=
  { overallScore := some 0
    sentimentOverTime := []
    sentimentDistribution := ⟨0, 0, 0⟩
    confidenceScores := []
    topKeywords := [] }

/-- `query.trim()` (whitespace stripping, as `String.prototype.trim`). -/
def jsTrim (s : String) : String :=
  String.mk (((s.data.dropWhile Char.isWhitespace).reverse.dropWhile Char.isWhitespace).reverse)

/-- `Promise.all` over already-settled per-post results: succeeds with all
values when every call succeeded, otherwise fails with the first failure. -/
def promiseAll : List (Except JsError SentimentResult) → Except JsError (List SentimentResult)
  | [] => .ok []
  | .ok a :: rest => (promiseAll rest).map (fun l => a :: l)
  | .error e :: _ => .error e

/-- `handleAnalyze` (lines 26-70) as a state transition: the external
collaborators `fetchTweets` and `analyzeSentiment` are passed as oracles,
already resolved to their settled outcomes, and the returned `Toast` is the
notification the user sees.  An empty/whitespace query is rejected without
touching the state; a fetch failure leaves both state cells unchanged; a
scoring failure happens after `setPosts` but before `setSentimentData`, so
the displayed analysis data is unchanged. -/
def handleAnalyze (fmt : Int → Int → String) (now : Int)
    (fetchTweets : String → Except JsError (List Post))
    (analyzeSentiment : String → Except JsError SentimentResult)
    (st : DashState) : DashState × Toast :=
  if jsTrim st.query = "" then (st, .error "Please enter a search query")
  else
    match fetchTweets st.query with
    | .error e => (st, .error (toastMessage e))
    | .ok fetchedPosts =>
      match promiseAll (fetchedPosts.map (fun post => analyzeSentiment post.text)) with
      | .error e => ({ st with posts := fetchedPosts }, .error (toastMessage e))
      | .ok sentiments =>
        ({ st with
            posts := fetchedPosts
            sentimentData := aggregate fmt now fetchedPosts sentiments },
          .success "Analysis complete!")

/-! ### Helper lemmas -/

/-- Bumping the bucket that a label names. -/
def bumpLabel (acc : Distribution) : Label → Distribution
  | .positive => { acc with positive := acc.positive + 1 }
  | .neutral => { acc with neutral := acc.neutral + 1 }
  | .negative => { acc with negative := acc.negative + 1 }

/-- The display text of a label. -/
def labelText : Label → String
  | .positive => "Positive"
  | .neutral => "Neutral"
  | .negative => "Negative"

theorem foldl_score_sum (l : List SentimentResult) :
    ∀ a : Rat, l.foldl (fun acc curr => acc + curr.score) a =
      a + (l.map (fun s => s.score)).sum := by
  induction l with
  | nil => intro a; simp
  | cons x xs ih =>
    intro a
    simp only [List.foldl_cons, List.map_cons, List.sum_cons, ih]
    ring

theorem foldl_distStep_sum (l : List SentimentResult) :
    ∀ acc : Distribution,
      (l.foldl distStep acc).positive + (l.foldl distStep acc).neutral +
          (l.foldl distStep acc).negative =
        acc.positive + acc.neutral + acc.negative + l.length := by
  induction l with
  | nil => intro acc; simp
  | cons x xs ih =>
    intro acc
    simp only [List.foldl_cons, List.length_cons, ih]
    unfold distStep
    split_ifs <;> simp <;> omega

/-! ### Claim theorems -/

/-- C2: the classifier used both for distribution counting and for the
overall-label display returns positive iff `s > 0.3`, negative iff
`s < -0.3`, neutral otherwise; both boundaries classify as neutral, and
inputs outside `[-1, 1]` are classified by the same rule, unclamped. -/
theorem classify_threshold_policy (s : Rat) :
    (classify s = .positive ↔ s > 3/10) ∧
    (classify s = .negative ↔ s < -(3/10)) ∧
    (classify s = .neutral ↔ ¬(s > 3/10) ∧ ¬(s < -(3/10))) ∧
    classify (3/10) = .neutral ∧
    classify (-(3/10)) = .neutral ∧
    classify 2 = .positive ∧
    classify (-5) = .negative ∧
    (∀ acc curr, distStep acc curr = bumpLabel acc (classify curr.score)) ∧
    (overallLabel s = labelText (classify s)) := by
  refine ⟨?_, ?_, ?_,
    by unfold classify; rw [if_neg (by norm_num), if_neg (by norm_num)],
    by unfold classify; rw [if_neg (by norm_num), if_neg (by norm_num)],
    by unfold classify; rw [if_pos (by norm_num)],
    by unfold classify; rw [if_neg (by norm_num), if_pos (by norm_num)], ?_, ?_⟩
  · unfold classify; split_ifs with h1 h2 <;> simp [h1]
  · unfold classify
    split_ifs with h1 h2
    · simp only [reduceCtorEq, false_iff, not_lt]
      linarith
    · simp [h2]
    · simp [h2]
  · unfold classify
    split_ifs with h1 h2
    · simp [h1]
    · simp [h2]
    · simp [h1, h2]
  · intro acc curr
    unfold distStep classify bumpLabel
    split_ifs <;> rfl
  · unfold overallLabel classify labelText
    split_ifs <;> rfl

/-- C4: the distribution partitions the sentiments — the three bucket counts
always sum to the number of sentiments. -/
theorem distribution_partitions (sentiments : List SentimentResult) :
    (distribution sentiments).positive + (distribution sentiments).neutral +
        (distribution sentiments).negative = sentiments.length := by
  unfold distribution
  simpa using foldl_distStep_sum sentiments ⟨0, 0, 0⟩

/-- C3: for a non-empty sentiment list the overall score is the arithmetic
mean of the scores; for the empty list the unguarded `0 / 0` yields `NaN`
(modelled `none`), not `0`; and the single-input round-trip example yields
`0.5`. -/
theorem overallScore_mean :
    (∀ sentiments : List SentimentResult, sentiments ≠ [] →
      overallScore sentiments =
        some ((sentiments.map (fun s => s.score)).sum / (sentiments.length : Rat))) ∧
    overallScore [] = none ∧
    overallScore [⟨1/2, some (9/10)⟩] = some (1/2) := by
  refine ⟨?_, by simp [overallScore, jsDiv], by norm_num [overallScore, jsDiv]⟩
  intro sentiments hne
  have h0 : sentiments.length ≠ 0 := fun h => hne (List.length_eq_zero.mp h)
  have hlen : (sentiments.length : Rat) ≠ 0 := Nat.cast_ne_zero.mpr h0
  unfold overallScore jsDiv
  rw [foldl_score_sum, if_neg hlen]
  simp

theorem overallScore_mean_witness :
    overallScore [⟨1/2, some (9/10)⟩] =
      some ((([(⟨1/2, some (9/10)⟩ : SentimentResult)].map (fun s => s.score)).sum) /
        (([(⟨1/2, some (9/10)⟩ : SentimentResult)].length : Nat) : Rat)) :=
  overallScore_mean.1 [⟨1/2, some (9/10)⟩] (by decide)

/-- C5 counterexample: a confidence present with value 0 does not survive into
`confidenceScores` — `s.confidence || 1` treats the falsy 0 as missing, so the
aggregator records 1, not 0. -/
theorem confidence_zero_counterexample :
    (aggregate (fun _ _ => "") 0 [] [⟨1/2, some 0⟩]).confidenceScores = [1] ∧
    (aggregate (fun _ _ => "") 0 [] [⟨1/2, some 0⟩]).confidenceScores ≠ [0] := by
  constructor
  · simp [aggregate, confidenceScores, jsOrDefault]
  · simp [aggregate, confidenceScores, jsOrDefault]

/-- C5 (amended): `confidenceScores[i]` is `sentiments[i].confidence` when that
field is present with a nonzero value, and the default 1 when it is absent or
present with the falsy value 0 (the code reads `s.confidence || 1`). -/
theorem confidenceScores_fallback (fmt : Int → Int → String) (now : Int)
    (posts : List Post) (sentiments : List SentimentResult) (i : Nat)
    (h : i < sentiments.length) :
    ((aggregate fmt now posts sentiments).confidenceScores[i]? =
      some (jsOrDefault sentiments[i].confidence 1)) ∧
    (∀ c : Rat, sentiments[i].confidence = some c → c ≠ 0 →
      (aggregate fmt now posts sentiments).confidenceScores[i]? = some c) ∧
    ((sentiments[i].confidence = none ∨ sentiments[i].confidence = some 0) →
      (aggregate fmt now posts sentiments).confidenceScores[i]? = some 1) := by
  have hbase : (aggregate fmt now posts sentiments).confidenceScores[i]? =
      some (jsOrDefault sentiments[i].confidence 1) := by
    simp [aggregate, confidenceScores]
    exact ⟨sentiments[i], List.getElem?_eq_getElem h, rfl⟩
  refine ⟨hbase, ?_, ?_⟩
  · intro c hc hc0
    rw [hbase, hc]
    simp [jsOrDefault, hc0]
  · rintro (hc | hc) <;> rw [hbase, hc] <;> simp [jsOrDefault]

theorem confidenceScores_fallback_witness :
    (aggregate (fun _ _ => "") 0 []
        [(⟨1/2, some (9/10)⟩ : SentimentResult)]).confidenceScores[0]? =
      some (jsOrDefault ([(⟨1/2, some (9/10)⟩ : SentimentResult)][0].confidence) 1) :=
  (confidenceScores_fallback (fun _ _ => "") 0 [] [⟨1/2, some (9/10)⟩] 0 (by decide)).1

/-- C7: `extractTopKeywords` is total and returns the empty sequence on the
empty input list and whenever every token is filtered out (empty strings,
stop-words, short tokens), e.g. on `["a an to"]`. -/
theorem extractTopKeywords_total_empty :
    extractTopKeywords [] = [] ∧
    (∀ texts : List String, pooledWords texts = [] → extractTopKeywords texts = []) ∧
    extractTopKeywords ["a an to"] = [] := by
  refine ⟨by decide, ?_, by decide⟩
  intro texts h
  unfold extractTopKeywords
  rw [h]
  rfl

theorem extractTopKeywords_total_empty_witness :
    extractTopKeywords ["a an to"] = [] :=
  extractTopKeywords_total_empty.2.1 ["a an to"] (by decide)

/-- C8 counterexample: the aggregation reads `new Date()` afresh for every
element (line 43), so if the clock ticks between reads, two posts with the
same `created_at` get different relative-time labels within one run — an
outcome no single injected `now` can reproduce: the claim's "now is supplied
as an explicit parameter rather than read from the wall clock inside the
aggregation" is false of the program. -/
theorem now_not_injected_counterexample :
    sentimentOverTimeClocked (fun _ n => if n = 0 then "t0" else "t1")
        (fun i => (i : Int)) [⟨1, "good day", 0⟩, ⟨2, "good day", 0⟩]
        [⟨0, none⟩, ⟨0, none⟩] = [("t0", 0), ("t1", 0)] ∧
    ¬ ∃ now : Int,
      sentimentOverTimeClocked (fun _ n => if n = 0 then "t0" else "t1")
          (fun i => (i : Int)) [⟨1, "good day", 0⟩, ⟨2, "good day", 0⟩]
          [⟨0, none⟩, ⟨0, none⟩] =
        sentimentOverTime (fun _ n => if n = 0 then "t0" else "t1") now
          [⟨1, "good day", 0⟩, ⟨2, "good day", 0⟩] [⟨0, none⟩, ⟨0, none⟩] := by
  have hrun : sentimentOverTimeClocked (fun _ n => if n = 0 then "t0" else "t1")
      (fun i => (i : Int)) [⟨1, "good day", 0⟩, ⟨2, "good day", 0⟩]
      [⟨0, none⟩, ⟨0, none⟩] = [("t0", 0), ("t1", 0)] := by decide
  refine ⟨hrun, ?_⟩
  rintro ⟨now, h⟩
  rw [hrun] at h
  have h2 : sentimentOverTime (fun _ n => if n = 0 then "t0" else "t1") now
      [⟨1, "good day", 0⟩, ⟨2, "good day", 0⟩] [⟨0, none⟩, ⟨0, none⟩] =
      [((if now = 0 then "t0" else "t1"), 0), ((if now = 0 then "t0" else "t1"), 0)] := rfl
  rw [h2] at h
  by_cases hn : now = 0 <;> simp [hn] at h

/-- C8 (amended): the aggregation is deterministic given posts, sentiments,
the formatter and the sequence of wall-clock values its internal `new Date()`
reads observe, and only the relative-time labels depend on those reads — the
plotted score values, overall score, distribution, confidences and keywords
are the same for any clock streams; a run in which every read observes the
same value `now` coincides with the aggregation parameterized by an injected
`now`.  But the code performs those reads inside the aggregation (one per
element, line 43) instead of accepting `now` as a parameter. -/
theorem aggregate_clock_dependence (fmt : Int → Int → String)
    (posts : List Post) (sentiments : List SentimentResult)
    (clock1 clock2 : Nat → Int) (now n1 n2 : Int) :
    (sentimentOverTimeClocked fmt clock1 posts sentiments).map Prod.snd =
      (sentimentOverTimeClocked fmt clock2 posts sentiments).map Prod.snd ∧
    sentimentOverTimeClocked fmt (fun _ => now) posts sentiments =
      sentimentOverTime fmt now posts sentiments ∧
    (aggregate fmt n1 posts sentiments).overallScore =
      (aggregate fmt n2 posts sentiments).overallScore ∧
    (aggregate fmt n1 posts sentiments).sentimentDistribution =
      (aggregate fmt n2 posts sentiments).sentimentDistribution ∧
    (aggregate fmt n1 posts sentiments).confidenceScores =
      (aggregate fmt n2 posts sentiments).confidenceScores ∧
    (aggregate fmt n1 posts sentiments).topKeywords =
      (aggregate fmt n2 posts sentiments).topKeywords := by
  refine ⟨?_, ?_, rfl, rfl, rfl, rfl⟩
  · simp [sentimentOverTimeClocked, List.map_map, Function.comp]
  · show ((posts.zip sentiments).enum).map
        ((fun ps : Post × SentimentResult =>
          (fmt ps.1.created_at now, ps.2.score)) ∘ Prod.snd) =
      sentimentOverTime fmt now posts sentiments
    rw [← List.map_map, List.enum_map_snd]
    rfl

/-- The failure carried by one settled Scorer outcome, if any. -/
def exceptError : Except JsError SentimentResult → Option JsError
  | .error e => some e
  | .ok _ => none

theorem promiseAll_first_error :
    ∀ (rs : List (Except JsError SentimentResult)) (e : JsError),
      rs.findSome? exceptError = some e → promiseAll rs = .error e := by
  intro rs
  induction rs with
  | nil => intro e he; simp [List.findSome?] at he
  | cons r rest ih =>
    intro e he
    cases r with
    | ok a =>
      simp only [List.findSome?_cons, exceptError] at he
      rw [promiseAll, ih e he]
      rfl
    | error e1 =>
      simp only [List.findSome?_cons, exceptError, Option.some.injEq] at he
      simp [promiseAll, he]

/-- C9: when the query is accepted and the fetch succeeds but some Scorer call
fails, `handleAnalyze` surfaces the first failure (the `Promise.all` join
rejects with it and the catch shows its message) and produces no partial
aggregate: the displayed analysis state `sentimentData` is exactly the state
from before the request. -/
theorem scoring_failure_all_or_nothing (fmt : Int → Int → String) (now : Int)
    (fetchTweets : String → Except JsError (List Post))
    (analyzeSentiment : String → Except JsError SentimentResult)
    (st : DashState) (fetchedPosts : List Post) (e : JsError)
    (hq : jsTrim st.query ≠ "")
    (hf : fetchTweets st.query = .ok fetchedPosts)
    (hs : (fetchedPosts.map (fun post => analyzeSentiment post.text)).findSome?
      exceptError = some e) :
    (handleAnalyze fmt now fetchTweets analyzeSentiment st).1.sentimentData =
      st.sentimentData ∧
    (handleAnalyze fmt now fetchTweets analyzeSentiment st).1.query = st.query ∧
    (handleAnalyze fmt now fetchTweets analyzeSentiment st).2 =
      .error (toastMessage e) := by
  have hp := promiseAll_first_error _ e hs
  unfold handleAnalyze
  rw [if_neg hq, hf]
  simp [hp]

theorem scoring_failure_all_or_nothing_witness :
    (handleAnalyze (fun _ _ => "") 0 (fun _ => Except.ok [⟨1, "bad day", 0⟩])
        (fun _ => Except.error (some "boom"))
        ⟨"q", [], initialSentimentData⟩).1.sentimentData = initialSentimentData ∧
    (handleAnalyze (fun _ _ => "") 0 (fun _ => Except.ok [⟨1, "bad day", 0⟩])
        (fun _ => Except.error (some "boom"))
        ⟨"q", [], initialSentimentData⟩).2 = Toast.error "boom" := by
  have h := scoring_failure_all_or_nothing (fun _ _ => "") 0
      (fun _ => Except.ok [⟨1, "bad day", 0⟩]) (fun _ => Except.error (some "boom"))
      ⟨"q", [], initialSentimentData⟩ [⟨1, "bad day", 0⟩] (some "boom")
      (by decide) rfl (by decide)
  exact ⟨h.1, h.2.2⟩

/-- Descending count order between two count-table entries. -/
def countGE (p q : String × Nat) : Prop := q.2 ≤ p.2

instance : IsTrans (String × Nat) countGE :=
  ⟨fun _ _ _ hab hbc => le_trans hbc hab⟩

theorem insertDesc_head? (x z : String × Nat) (l : List (String × Nat))
    (h : (insertDesc x l).head? = some z) : z = x ∨ l.head? = some z := by
  cases l with
  | nil =>
    left
    simp [insertDesc] at h
    exact h.symm
  | cons y ys =>
    unfold insertDesc at h
    split_ifs at h
    · left
      simp at h
      exact h.symm
    · right
      simpa using h

theorem chain_insertDesc (x : String × Nat) (l : List (String × Nat))
    (h : l.Chain' countGE) : (insertDesc x l).Chain' countGE := by
  induction l with
  | nil => simp [insertDesc]
  | cons y ys ih =>
    unfold insertDesc
    split_ifs with hle
    · refine List.chain'_cons'.mpr ⟨?_, h⟩
      intro z hz
      simp at hz
      subst hz
      exact hle
    · have hys := List.chain'_cons'.mp h
      refine List.chain'_cons'.mpr ⟨?_, ih hys.2⟩
      intro z hz
      rcases insertDesc_head? x z ys (by simpa using hz) with rfl | hz2
      · exact Nat.le_of_lt (Nat.lt_of_not_le hle)
      · exact hys.1 z (by simpa using hz2)

theorem chain_sortDesc (l : List (String × Nat)) : (sortDesc l).Chain' countGE := by
  induction l with
  | nil => simp [sortDesc]
  | cons x xs ih => exact chain_insertDesc x (sortDesc xs) ih

/-- C6: the keyword result always has at most 10 entries and is sorted in
descending order of count. -/
theorem topKeywords_bounded_sorted (texts : List String) :
    (extractTopKeywords texts).length ≤ 10 ∧
    (extractTopKeywords texts).Pairwise (fun a b => b.count ≤ a.count) := by
  constructor
  · unfold extractTopKeywords
    rw [List.length_map, List.length_take]
    exact Nat.min_le_left _ _
  · unfold extractTopKeywords
    rw [List.pairwise_map]
    have hp : (sortDesc (jsEntries (wordCounts (pooledWords texts)))).Pairwise countGE :=
      List.chain'_iff_pairwise.mp (chain_sortDesc _)
    exact List.Pairwise.sublist (List.take_sublist _ _) (hp.imp fun h => h)

/-- Number of occurrences of a token in a token list. -/
def occCount (w : String) : List String → Nat
  | [] => 0
  | v :: vs => (if w = v then 1 else 0) + occCount w vs

/-- First-match lookup in the count table. -/
def lookupKey : List (String × Nat) → String → Option Nat
  | [], _ => none
  | (k, c) :: m, w => if w = k then some c else lookupKey m w

/-- The count a table holds for a key, zero when absent. -/
def tableCount (m : List (String × Nat)) (w : String) : Nat := (lookupKey m w).getD 0

/-- The keys of the count table, in enumeration order. -/
def keysOf (m : List (String × Nat)) : List String := m.map Prod.fst

/-- The distinct tokens of a token list, in first-occurrence order. -/
def firstOccurrences (ws : List String) : List String :=
  ws.foldl (fun acc w => if w ∈ acc then acc else acc ++ [w]) []

theorem tableCount_recordInsert (m : List (String × Nat)) (w k : String) :
    tableCount (recordInsert m w) k = tableCount m k + (if k = w then 1 else 0) := by
  induction m with
  | nil => by_cases h : k = w <;> simp [recordInsert, tableCount, lookupKey, h]
  | cons p m ih =>
    obtain ⟨k1, c⟩ := p
    by_cases h1 : k1 = w
    · subst h1
      by_cases h2 : k = k1
      · subst h2
        simp [recordInsert, tableCount, lookupKey]
      · simp [recordInsert, tableCount, lookupKey, h2]
    · rw [show recordInsert ((k1, c) :: m) w = (k1, c) :: recordInsert m w by
        simp [recordInsert, h1]]
      by_cases h2 : k = k1
      · subst h2
        simp [tableCount, lookupKey, h1]
      · simp [tableCount, lookupKey, h2] at ih ⊢
        exact ih

theorem tableCount_foldl (ws : List String) :
    ∀ (m : List (String × Nat)) (k : String),
      tableCount (ws.foldl recordInsert m) k = tableCount m k + occCount k ws := by
  induction ws with
  | nil => intro m k; simp [occCount]
  | cons w ws ih =>
    intro m k
    rw [List.foldl_cons, ih, tableCount_recordInsert]
    by_cases h : k = w <;> simp [occCount, h] <;> omega

theorem lookupKey_of_mem (m : List (String × Nat)) (hnd : (keysOf m).Nodup)
    (p : String × Nat) (hp : p ∈ m) : lookupKey m p.1 = some p.2 := by
  induction m with
  | nil => simp at hp
  | cons q m ih =>
    simp only [keysOf, List.map_cons, List.nodup_cons] at hnd
    rcases List.mem_cons.mp hp with rfl | hp2
    · simp [lookupKey]
    · have hq : ¬ p.1 = q.1 := by
        intro he
        exact hnd.1 (he ▸ List.mem_map_of_mem Prod.fst hp2)
      simp only [lookupKey, if_neg hq]
      exact ih hnd.2 hp2

theorem keysOf_recordInsert (m : List (String × Nat)) (w : String) :
    keysOf (recordInsert m w) =
      if w ∈ keysOf m then keysOf m else keysOf m ++ [w] := by
  induction m with
  | nil => simp [recordInsert, keysOf]
  | cons p m ih =>
    obtain ⟨k1, c⟩ := p
    by_cases h1 : k1 = w
    · subst h1
      simp [recordInsert, keysOf]
    · have h1' : ¬ w = k1 := fun h => h1 h.symm
      have step : recordInsert ((k1, c) :: m) w = (k1, c) :: recordInsert m w := by
        simp [recordInsert, h1]
      rw [step]
      simp only [keysOf, List.map_cons] at ih ⊢
      by_cases hm : w ∈ List.map Prod.fst m
      · rw [ih, if_pos hm, if_pos (List.mem_cons_of_mem _ hm)]
      · rw [ih, if_neg hm, if_neg (by simp [List.mem_cons, h1', hm])]
        rfl

theorem nodup_keysOf_recordInsert (m : List (String × Nat)) (w : String)
    (h : (keysOf m).Nodup) : (keysOf (recordInsert m w)).Nodup := by
  rw [keysOf_recordInsert]
  split_ifs with hw
  · exact h
  · simp [List.nodup_append, h, hw]

theorem nodup_keysOf_wordCounts (ws : List String) : (keysOf (wordCounts ws)).Nodup := by
  have : ∀ m : List (String × Nat), (keysOf m).Nodup →
      (keysOf (ws.foldl recordInsert m)).Nodup := by
    induction ws with
    | nil => intro m hm; simpa using hm
    | cons w ws ih =>
      intro m hm
      rw [List.foldl_cons]
      exact ih _ (nodup_keysOf_recordInsert m w hm)
  simpa using this [] (by simp [keysOf])

theorem keysOf_foldl (ws : List String) :
    ∀ m : List (String × Nat),
      keysOf (ws.foldl recordInsert m) =
        ws.foldl (fun acc w => if w ∈ acc then acc else acc ++ [w]) (keysOf m) := by
  induction ws with
  | nil => intro m; simp
  | cons w ws ih =>
    intro m
    rw [List.foldl_cons, List.foldl_cons, ih, keysOf_recordInsert]

theorem keysOf_wordCounts (ws : List String) :
    keysOf (wordCounts ws) = firstOccurrences ws :=
  keysOf_foldl ws []

theorem mem_firstOccurrences (ws : List String) (x : String) :
    x ∈ firstOccurrences ws ↔ x ∈ ws := by
  have key : ∀ (l : List String) (acc : List String),
      x ∈ l.foldl (fun a w => if w ∈ a then a else a ++ [w]) acc ↔ x ∈ acc ∨ x ∈ l := by
    intro l
    induction l with
    | nil => intro acc; simp
    | cons w l ih =>
      intro acc
      rw [List.foldl_cons, ih]
      by_cases hw : w ∈ acc
      · rw [if_pos hw]
        constructor
        · rintro (h | h)
          · exact Or.inl h
          · exact Or.inr (List.mem_cons_of_mem w h)
        · rintro (h | h)
          · exact Or.inl h
          · rcases List.mem_cons.mp h with rfl | h2
            · exact Or.inl hw
            · exact Or.inr h2
      · rw [if_neg hw]
        simp only [List.mem_append, List.mem_singleton, List.mem_cons]
        tauto
  simpa using key ws []

theorem mem_wordCounts_count (ws : List String) (p : String × Nat)
    (hp : p ∈ wordCounts ws) : p.2 = occCount p.1 ws ∧ p.1 ∈ ws := by
  have h1 := lookupKey_of_mem _ (nodup_keysOf_wordCounts ws) p hp
  have h2 := tableCount_foldl ws [] p.1
  have h3 : tableCount (wordCounts ws) p.1 = p.2 := by
    rw [tableCount, h1]
    rfl
  constructor
  · rw [← h3]
    simpa [tableCount, lookupKey] using h2
  · have hk : p.1 ∈ keysOf (wordCounts ws) := List.mem_map_of_mem Prod.fst hp
    rw [keysOf_wordCounts] at hk
    exact (mem_firstOccurrences ws p.1).mp hk

theorem mem_insertDesc (a x : String × Nat) (l : List (String × Nat)) :
    a ∈ insertDesc x l ↔ a = x ∨ a ∈ l := by
  induction l with
  | nil => simp [insertDesc]
  | cons y ys ih =>
    unfold insertDesc
    split_ifs with h <;> simp [ih, List.mem_cons] <;> tauto

theorem mem_sortDesc (a : String × Nat) (l : List (String × Nat)) :
    a ∈ sortDesc l ↔ a ∈ l := by
  induction l with
  | nil => simp [sortDesc]
  | cons x xs ih =>
    show a ∈ insertDesc x (sortDesc xs) ↔ _
    rw [mem_insertDesc, ih]
    simp [List.mem_cons]

theorem mem_insertAscIdx (a x : String × Nat) (l : List (String × Nat)) :
    a ∈ insertAscIdx x l ↔ a = x ∨ a ∈ l := by
  induction l with
  | nil => simp [insertAscIdx]
  | cons y ys ih =>
    unfold insertAscIdx
    split_ifs with h <;> simp [ih, List.mem_cons] <;> tauto

theorem mem_sortAscIdx (a : String × Nat) (l : List (String × Nat)) :
    a ∈ sortAscIdx l ↔ a ∈ l := by
  induction l with
  | nil => simp [sortAscIdx]
  | cons x xs ih =>
    show a ∈ insertAscIdx x (sortAscIdx xs) ↔ _
    rw [mem_insertAscIdx, ih]
    simp [List.mem_cons]

theorem mem_jsEntries (a : String × Nat) (m : List (String × Nat)) :
    a ∈ jsEntries m ↔ a ∈ m := by
  unfold jsEntries
  rw [List.mem_append, mem_sortAscIdx]
  by_cases h : isArrayIndexKey a.1 <;> simp [List.mem_filter, h]

/-- C1: keyword extraction pools the lowercased, whitespace-split,
stop-word- and length-filtered tokens of all texts into one stream; every
returned entry's count is the number of occurrences of its keyword in that
pooled stream (no further normalization), and the two-text example has first
entry `{keyword: "cat", count: 2}`. -/
theorem extractTopKeywords_pipeline (texts : List String) :
    (pooledWords texts = texts.flatMap (fun t =>
      (splitWs (jsToLower t)).filter
        (fun w => !(stopWords.contains w) && decide (w.length > 2)))) ∧
    (∀ e ∈ extractTopKeywords texts,
      e.keyword ∈ pooledWords texts ∧ e.count = occCount e.keyword (pooledWords texts)) ∧
    (extractTopKeywords ["the cat sat", "cat runs fast"]).head? = some ⟨"cat", 2⟩ := by
  refine ⟨rfl, ?_, by decide⟩
  intro e he
  unfold extractTopKeywords at he
  rcases List.mem_map.mp he with ⟨p, hp, rfl⟩
  have hp2 : p ∈ sortDesc (jsEntries (wordCounts (pooledWords texts))) :=
    List.mem_of_mem_take hp
  have hp3 : p ∈ jsEntries (wordCounts (pooledWords texts)) := (mem_sortDesc _ _).mp hp2
  have hp4 : p ∈ wordCounts (pooledWords texts) := (mem_jsEntries _ _).mp hp3
  have h5 := mem_wordCounts_count _ p hp4
  exact ⟨h5.2, h5.1⟩

theorem extractTopKeywords_pipeline_witness :
    (⟨"cat", 2⟩ : KeywordCount).keyword ∈ pooledWords ["the cat sat", "cat runs fast"] ∧
    (⟨"cat", 2⟩ : KeywordCount).count =
      occCount "cat" (pooledWords ["the cat sat", "cat runs fast"]) :=
  (extractTopKeywords_pipeline ["the cat sat", "cat runs fast"]).2.1
    ⟨"cat", 2⟩ (by decide)

theorem filter_insertDesc (x : String × Nat) (l : List (String × Nat)) (c : Nat) :
    (insertDesc x l).filter (fun p => p.2 == c) =
      if x.2 = c then x :: l.filter (fun p => p.2 == c)
      else l.filter (fun p => p.2 == c) := by
  induction l with
  | nil => by_cases h : x.2 = c <;> simp [insertDesc, h]
  | cons y ys ih =>
    by_cases hle : y.2 ≤ x.2
    · rw [show insertDesc x (y :: ys) = x :: y :: ys from by simp [insertDesc, hle]]
      by_cases hx : x.2 = c <;> simp [List.filter_cons, hx]
    · rw [show insertDesc x (y :: ys) = y :: insertDesc x ys from by simp [insertDesc, hle]]
      rw [List.filter_cons, List.filter_cons, ih]
      by_cases hy : y.2 = c
      · have hx : ¬ x.2 = c := by omega
        simp [hy, hx]
      · by_cases hx : x.2 = c <;> simp [hy, hx]

theorem filter_sortDesc (l : List (String × Nat)) (c : Nat) :
    (sortDesc l).filter (fun p => p.2 == c) = l.filter (fun p => p.2 == c) := by
  induction l with
  | nil => rfl
  | cons x xs ih =>
    show (insertDesc x (sortDesc xs)).filter _ = _
    rw [filter_insertDesc]
    by_cases hx : x.2 = c <;> simp [hx, ih, List.filter_cons]

/-- C10 counterexample: in `["abc 100"]` both surviving tokens occur once,
the pooled first-occurrence order is `abc` before `100`, yet the result lists
`100` first — `Object.entries` enumerates the array-index-like key `"100"`
before the insertion-ordered string keys, so ties are not returned in
first-occurrence order. -/
theorem tie_order_counterexample :
    pooledWords ["abc 100"] = ["abc", "100"] ∧
    occCount "abc" (pooledWords ["abc 100"]) = 1 ∧
    occCount "100" (pooledWords ["abc 100"]) = 1 ∧
    (extractTopKeywords ["abc 100"]).map (fun e => e.keyword) = ["100", "abc"] ∧
    (extractTopKeywords ["abc 100"]).map (fun e => e.keyword) ≠ ["abc", "100"] := by
  decide

/-- C10 (amended): the descending sort is stable, so keywords of equal count
keep the order of the `Object.entries` enumeration of the count table; that
enumeration is first-occurrence (insertion) order of the pooled token stream
only for the non-array-index keys — tokens that are canonical numeric strings
below `2^32 - 1` are enumerated first, in ascending numeric order.  The
ranking is still a deterministic function of the input texts. -/
theorem tie_order_stable (texts : List String) :
    (∀ c : Nat,
      (sortDesc (jsEntries (wordCounts (pooledWords texts)))).filter (fun p => p.2 == c) =
        (jsEntries (wordCounts (pooledWords texts))).filter (fun p => p.2 == c)) ∧
    extractTopKeywords texts =
      ((sortDesc (jsEntries (wordCounts (pooledWords texts)))).take 10).map
        (fun p => ⟨p.1, p.2⟩) ∧
    ((∀ w ∈ pooledWords texts, isArrayIndexKey w = false) →
      jsEntries (wordCounts (pooledWords texts)) = wordCounts (pooledWords texts)) ∧
    keysOf (wordCounts (pooledWords texts)) = firstOccurrences (pooledWords texts) := by
  refine ⟨fun c => filter_sortDesc _ c, rfl, ?_, keysOf_wordCounts _⟩
  intro hno
  have hkeys : ∀ p ∈ wordCounts (pooledWords texts), isArrayIndexKey p.1 = false := by
    intro p hp
    apply hno
    have hk : p.1 ∈ keysOf (wordCounts (pooledWords texts)) :=
      List.mem_map_of_mem Prod.fst hp
    rw [keysOf_wordCounts] at hk
    exact (mem_firstOccurrences _ _).mp hk
  unfold jsEntries
  rw [show (wordCounts (pooledWords texts)).filter (fun p => isArrayIndexKey p.1) = []
      from List.filter_eq_nil_iff.mpr (fun p hp => by simp [hkeys p hp])]
  rw [show (wordCounts (pooledWords texts)).filter (fun p => !isArrayIndexKey p.1) =
        wordCounts (pooledWords texts)
      from List.filter_eq_self.mpr (fun p hp => by simp [hkeys p hp])]
  rfl

theorem tie_order_stable_witness :
    jsEntries (wordCounts (pooledWords ["the cat sat", "cat runs fast"])) =
      wordCounts (pooledWords ["the cat sat", "cat runs fast"]) :=
  (tie_order_stable ["the cat sat", "cat runs fast"]).2.2.1 (by decide)

end SocialSentiment
